import Mathlib

/-!
Verification of the discrete-surfaces / elastic-metric module
(`my28brains/discrete_surfaces.py`).

Surfaces with a fixed triangulation are embedded as arrays
`Fin nV → Fin 3 → ℝ` of vertex coordinates, faces as an index table
`Fin nF → Fin 3 → Fin nV`.  Real square roots in the source
(`gs.sqrt`, `gs.linalg.norm`) are embedded as `Real.sqrt`; all other
arithmetic is exact real arithmetic.  The external optimizer
(`scipy.optimize.minimize`) and the autodiff engine are black boxes per
the specification; only the code surrounding their call sites is
embedded, parameterized by the optimizer's returned solution.
-/

noncomputable section

namespace MyBrains

open Finset

/-- A 3D vector: one row of a surface array. -/
abbrev V3 : Type := Fin 3 → ℝ

/-- A surface with `nV` vertices: the `[n_vertices, 3]` coordinate array. -/
abbrev Surf (nV : ℕ) : Type := Fin nV → V3

/-- Euclidean dot product of two 3D vectors (`gs.einsum("...bi,...bi->...b")`). -/
def dot (a b : V3) : ℝ := ∑ d : Fin 3, a d * b d

/-- Cross product of two 3D vectors (`gs.cross`). -/
def cross (a b : V3) : V3 :=
  ![a 1 * b 2 - a 2 * b 1, a 2 * b 0 - a 0 * b 2, a 0 * b 1 - a 1 * b 0]

/-- Euclidean norm of the difference of two vertices (`gs.linalg.norm(a - b)`). -/
def edgeLen (a b : V3) : ℝ := Real.sqrt (dot (a - b) (a - b))

/-- Matrix product of two real arrays (`gs.matmul`). -/
def mmul {a b c : ℕ} (A : Fin a → Fin b → ℝ) (B : Fin b → Fin c → ℝ) :
    Fin a → Fin c → ℝ :=
  fun i j => ∑ k : Fin b, A i k * B k j

/-- Transpose of a real array (`gs.transpose` on the two last axes). -/
def mtrans {a b : ℕ} (A : Fin a → Fin b → ℝ) : Fin b → Fin a → ℝ :=
  fun i j => A j i

/-- Entrywise difference of two arrays. -/
def msub {a b : ℕ} (A B : Fin a → Fin b → ℝ) : Fin a → Fin b → ℝ :=
  fun i j => A i j - B i j

/-- Trace of a square array (`gs.einsum("...bii->...b")`). -/
def mtrace {n : ℕ} (A : Fin n → Fin n → ℝ) : ℝ := ∑ i : Fin n, A i i

/-- 2×2 real matrix. -/
abbrev M2 : Type := Fin 2 → Fin 2 → ℝ

/-- Determinant of a 2×2 matrix (`gs.linalg.det`). -/
def m2det (g : M2) : ℝ := g 0 0 * g 1 1 - g 0 1 * g 1 0

/-- Inverse of a 2×2 matrix (`gs.linalg.inv`), written out as adjugate over
determinant; it agrees with the true inverse whenever the determinant is
nonzero, which is the only regime in which the source calls it. -/
def m2inv (g : M2) : M2 :=
  ![![g 1 1 / m2det g, -(g 0 1) / m2det g],
    ![-(g 1 0) / m2det g, g 0 0 / m2det g]]

/-- `DiscreteSurfaces._vertices`: the 3D coordinates of the `i`-th vertex of
face `f` of surface `q`. -/
def vtx {nV nF : ℕ} (faces : Fin nF → Fin 3 → Fin nV) (q : Surf nV)
    (f : Fin nF) (i : Fin 3) : V3 :=
  q (faces f i)

/-- `DiscreteSurfaces.surface_one_forms`: per-face 2×3 array stacking the two
edge vectors `vertex_1 - vertex_0` and `vertex_2 - vertex_0`. -/
def oneForms {nV nF : ℕ} (faces : Fin nF → Fin 3 → Fin nV) (q : Surf nV)
    (f : Fin nF) : Fin 2 → Fin 3 → ℝ :=
  ![vtx faces q f 1 - vtx faces q f 0, vtx faces q f 2 - vtx faces q f 0]

/-- `DiscreteSurfaces._surface_metric_matrices_from_one_forms`: the one-form
times its transpose. -/
def metricFromOneForms (ξ : Fin 2 → Fin 3 → ℝ) : M2 := mmul ξ (mtrans ξ)

/-- `DiscreteSurfaces.surface_metric_matrices`: per-face 2×2 Gram matrix of
the one-forms. -/
def surfaceMetricMats {nV nF : ℕ} (faces : Fin nF → Fin 3 → Fin nV)
    (q : Surf nV) (f : Fin nF) : M2 :=
  metricFromOneForms (oneForms faces q f)

/-- `DiscreteSurfaces.face_areas`: square root of the determinant of the
surface metric matrix.  Note: the source applies no clip here. -/
def faceAreas {nV nF : ℕ} (faces : Fin nF → Fin 3 → Fin nV) (q : Surf nV)
    (f : Fin nF) : ℝ :=
  Real.sqrt (m2det (surfaceMetricMats faces q f))

/-- `DiscreteSurfaces.normals`: half the cross product of the two edges
incident to the face's first vertex. -/
def normals {nV nF : ℕ} (faces : Fin nF → Fin 3 → Fin nV) (q : Surf nV)
    (f : Fin nF) : V3 :=
  (1 / 2 : ℝ) • cross (vtx faces q f 1 - vtx faces q f 0)
    (vtx faces q f 2 - vtx faces q f 0)

/-- The Heron product `s(s-a)(s-b)(s-c)` computed by
`DiscreteSurfaces._triangle_areas` (and, identically, inside `laplacian`). -/
def heronProd {nV nF : ℕ} (faces : Fin nF → Fin 3 → Fin nV) (q : Surf nV)
    (f : Fin nF) : ℝ :=
  let lenEdge12 := edgeLen (vtx faces q f 1) (vtx faces q f 2)
  let lenEdge02 := edgeLen (vtx faces q f 0) (vtx faces q f 2)
  let lenEdge01 := edgeLen (vtx faces q f 0) (vtx faces q f 1)
  let halfPerimeter := (1 / 2 : ℝ) * (lenEdge12 + lenEdge02 + lenEdge01)
  halfPerimeter * (halfPerimeter - lenEdge12) * (halfPerimeter - lenEdge02)
    * (halfPerimeter - lenEdge01)

/-- The argument of the square root in `_triangle_areas`: the Heron product
clipped below at `1e-6` (`.clip(min=1e-6)`). -/
def heronClipped {nV nF : ℕ} (faces : Fin nF → Fin 3 → Fin nV) (q : Surf nV)
    (f : Fin nF) : ℝ :=
  max (heronProd faces q f) (1 / 1000000)

/-- `DiscreteSurfaces._triangle_areas`: square root of the clipped Heron
product. -/
def triangleAreas {nV nF : ℕ} (faces : Fin nF → Fin 3 → Fin nV) (q : Surf nV)
    (f : Fin nF) : ℝ :=
  Real.sqrt (heronClipped faces q f)

/-- Row-major flattening of the face index table (`gs.flatten(faces)`):
entry `k` is `faces[k / 3][k % 3]`. -/
def flatFaces {nV nF : ℕ} (faces : Fin nF → Fin 3 → Fin nV)
    (k : Fin (nF * 3)) : Fin nV :=
  faces ⟨k.val / 3, by have := k.isLt; omega⟩ ⟨k.val % 3, by omega⟩

/-- The face whose area is paired with flat slot `k` in `vertex_areas`:
the source broadcasts `area` to shape `(3, n_faces)` and reshapes row-major,
so slot `k` carries `area[k % n_faces]`. -/
def tiledAreaIdx {nV nF : ℕ} (_faces : Fin nF → Fin 3 → Fin nV)
    (k : Fin (nF * 3)) : Fin nF :=
  ⟨k.val % nF, Nat.mod_lt _ (by have := k.isLt; omega)⟩

/-- The scatter-add accumulation in `DiscreteSurfaces.vertex_areas`:
`incident_areas[v] = Σ_{k : flat_faces[k] = v} val[k]`. -/
def incidentAreas {nV nF : ℕ} (faces : Fin nF → Fin 3 → Fin nV) (q : Surf nV)
    (v : Fin nV) : ℝ :=
  ∑ k : Fin (nF * 3),
    if flatFaces faces k = v then triangleAreas faces q (tiledAreaIdx faces k)
    else 0

/-- `DiscreteSurfaces.vertex_areas`: `2 * incident_areas / 3`. -/
def vertexAreas {nV nF : ℕ} (faces : Fin nF → Fin 3 → Fin nV) (q : Surf nV)
    (v : Fin nV) : ℝ :=
  2 * incidentAreas faces q v / 3

/-- The per-face cotangent array of `DiscreteSurfaces.laplacian`:
`cot = [cot_12, cot_02, cot_01] / 2` with `cot_ij` built from squared edge
lengths divided by the clipped Heron area. -/
def lapCot {nV nF : ℕ} (faces : Fin nF → Fin 3 → Fin nV) (q : Surf nV)
    (f : Fin nF) (i : Fin 3) : ℝ :=
  let lenEdge12 := edgeLen (vtx faces q f 1) (vtx faces q f 2)
  let lenEdge02 := edgeLen (vtx faces q f 0) (vtx faces q f 2)
  let lenEdge01 := edgeLen (vtx faces q f 0) (vtx faces q f 1)
  let area := triangleAreas faces q f
  let sq12 := lenEdge12 * lenEdge12
  let sq02 := lenEdge02 * lenEdge02
  let sq01 := lenEdge01 * lenEdge01
  ![(sq02 + sq01 - sq12) / area, (sq12 + sq01 - sq02) / area,
    (sq12 + sq02 - sq01) / area] i / 2

/-- First row of the `id_vertices` index array of `laplacian`:
flat slot `k` holds `faces[k / 3][(k % 3 + 1) % 3]` (the `[1,2,0]` cycle). -/
def lapIdx0 {nV nF : ℕ} (faces : Fin nF → Fin 3 → Fin nV)
    (k : Fin (nF * 3)) : Fin nV :=
  faces ⟨k.val / 3, by have := k.isLt; omega⟩ ⟨(k.val % 3 + 1) % 3, by omega⟩

/-- Second row of the `id_vertices` index array of `laplacian`:
flat slot `k` holds `faces[k / 3][(k % 3 + 2) % 3]` (the `[2,0,1]` cycle). -/
def lapIdx1 {nV nF : ℕ} (faces : Fin nF → Fin 3 → Fin nV)
    (k : Fin (nF * 3)) : Fin nV :=
  faces ⟨k.val / 3, by have := k.isLt; omega⟩ ⟨(k.val % 3 + 2) % 3, by omega⟩

/-- Row-major flattening of the cotangent array (`gs.flatten(cot)`). -/
def lapCotFlat {nV nF : ℕ} (faces : Fin nF → Fin 3 → Fin nV) (q : Surf nV)
    (k : Fin (nF * 3)) : ℝ :=
  lapCot faces q ⟨k.val / 3, by have := k.isLt; omega⟩ ⟨k.val % 3, by omega⟩

/-- The operator returned by `DiscreteSurfaces.laplacian(point)`: for each
flat slot `k`, the cot-weighted difference
`cot[k] * (tv[id_vertices[0][k]] - tv[id_vertices[1][k]])` is scatter-added
at vertex `id_vertices[1][k]`. -/
def laplacianAt {nV nF : ℕ} (faces : Fin nF → Fin 3 → Fin nV) (q : Surf nV)
    (tv : Surf nV) : Surf nV :=
  fun v =>
    ∑ k : Fin (nF * 3),
      if lapIdx1 faces k = v then
        lapCotFlat faces q k • (tv (lapIdx0 faces k) - tv (lapIdx1 faces k))
      else 0

/-- The coefficient state stored by `ElasticMetric`. -/
structure ElasticMetric where
  a0 : ℝ
  a1 : ℝ
  b1 : ℝ
  c1 : ℝ
  d1 : ℝ
  a2 : ℝ

/-- `ElasticMetric.__init__`: stores the six coefficients as given; the source
performs no validation of any kind. -/
def elasticMetricInit (a0 a1 b1 c1 d1 a2 : ℝ) : ElasticMetric :=
  ⟨a0, a1, b1, c1, d1, a2⟩

/-- `ElasticMetric._inner_product_a0`:
`a0 * Σ_v vertex_areas[v] * ⟨h[v], k[v]⟩`. -/
def innerProductA0 {nV nF : ℕ} (m : ElasticMetric)
    (faces : Fin nF → Fin 3 → Fin nV) (q h k : Surf nV) : ℝ :=
  m.a0 * ∑ v : Fin nV, vertexAreas faces q v * dot (h v) (k v)

/-- `ElasticMetric._inner_product_a2`:
`a2 * Σ_v ⟨Δ_q h [v], Δ_q k [v]⟩ / vertex_areas[v]`. -/
def innerProductA2 {nV nF : ℕ} (m : ElasticMetric)
    (faces : Fin nF → Fin 3 → Fin nV) (q h k : Surf nV) : ℝ :=
  m.a2 * ∑ v : Fin nV,
    dot (laplacianAt faces q h v) (laplacianAt faces q k v)
      / vertexAreas faces q v

/-- `ElasticMetric._inner_product_c1`:
`c1 * Σ_f ⟨normals(q+h) - normals(q), normals(q+k) - normals(q)⟩ * areas[f]`. -/
def innerProductC1 {nV nF : ℕ} (m : ElasticMetric)
    (faces : Fin nF → Fin 3 → Fin nV) (q h k : Surf nV) : ℝ :=
  m.c1 * ∑ f : Fin nF,
    dot (normals faces (q + h) f - normals faces q f)
        (normals faces (q + k) f - normals faces q f)
      * faceAreas faces q f

/-- The matrix `dg = one_forms_p @ one_forms_pᵀ - g_q` computed inside
`inner_product` for the `a1`/`b1` terms, at the perturbed point `p`. -/
def dgMat {nV nF : ℕ} (faces : Fin nF → Fin 3 → Fin nV) (q p : Surf nV)
    (f : Fin nF) : M2 :=
  msub (mmul (oneForms faces p f) (mtrans (oneForms faces p f)))
    (surfaceMetricMats faces q f)

/-- `ginvdg = g_q⁻¹ @ dg` as computed inside `inner_product`. -/
def ginvdg {nV nF : ℕ} (faces : Fin nF → Fin 3 → Fin nV) (q p : Surf nV)
    (f : Fin nF) : M2 :=
  mmul (m2inv (surfaceMetricMats faces q f)) (dgMat faces q p f)

/-- `ElasticMetric._inner_product_a1`:
`a1 * Σ_f tr(ginvdga @ ginvdgb) * areas[f]`. -/
def innerProductA1 {nV nF : ℕ} (m : ElasticMetric)
    (faces : Fin nF → Fin 3 → Fin nV) (q h k : Surf nV) : ℝ :=
  m.a1 * ∑ f : Fin nF,
    mtrace (mmul (ginvdg faces q (q + h) f) (ginvdg faces q (q + k) f))
      * faceAreas faces q f

/-- `ElasticMetric._inner_product_b1`:
`b1 * Σ_f tr(ginvdga) * tr(ginvdgb) * areas[f]`. -/
def innerProductB1 {nV nF : ℕ} (m : ElasticMetric)
    (faces : Fin nF → Fin 3 → Fin nV) (q h k : Surf nV) : ℝ :=
  m.b1 * ∑ f : Fin nF,
    mtrace (ginvdg faces q (q + h) f) * mtrace (ginvdg faces q (q + k) f)
      * faceAreas faces q f

/-- The 3×2 array `xa_0` computed inside `ElasticMetric._inner_product_d1`
for a perturbed point `p`:
`(ξᵀ @ g⁻¹) @ (xaᵀ @ ξᵀ - ξ @ xa)` with `ξ` the base-point one-form and
`xa = one_forms_pᵀ - ξᵀ`. -/
def xRes {nV nF : ℕ} (faces : Fin nF → Fin 3 → Fin nV) (q p : Surf nV)
    (f : Fin nF) : Fin 3 → Fin 2 → ℝ :=
  let ξ := oneForms faces q f
  let ξt := mtrans ξ
  let ginv := m2inv (surfaceMetricMats faces q f)
  let xa := msub (mtrans (oneForms faces p f)) ξt
  mmul (mmul ξt ginv) (msub (mmul (mtrans xa) ξt) (mmul ξ xa))

/-- `ElasticMetric._inner_product_d1`:
`d1 * Σ_f tr(xa_0 @ (g⁻¹ @ xb_0ᵀ)) * areas[f]`. -/
def innerProductD1 {nV nF : ℕ} (m : ElasticMetric)
    (faces : Fin nF → Fin 3 → Fin nV) (q h k : Surf nV) : ℝ :=
  m.d1 * ∑ f : Fin nF,
    mtrace (mmul (xRes faces q (q + h) f)
        (mmul (m2inv (surfaceMetricMats faces q f))
          (mtrans (xRes faces q (q + k) f))))
      * faceAreas faces q f

/-- `ElasticMetric.inner_product`: the guarded accumulation of the six terms
exactly as in the source.  Note the second guard reads
`a1 > 0 or b1 > 0 or c1 > 0 or b1 > 0` in the source (the `b1` test is
duplicated where `d1` was evidently intended), so the whole first-order block
including the `d1` term is skipped when `a1 = b1 = c1 = 0`. -/
def innerProduct {nV nF : ℕ} (m : ElasticMetric)
    (faces : Fin nF → Fin 3 → Fin nV) (h k q : Surf nV) : ℝ :=
  (if 0 < m.a0 ∨ 0 < m.a2 then
      (if 0 < m.a0 then innerProductA0 m faces q h k else 0)
    + (if 0 < m.a2 then innerProductA2 m faces q h k else 0)
   else 0)
  +
  (if 0 < m.a1 ∨ 0 < m.b1 ∨ 0 < m.c1 ∨ 0 < m.b1 then
      (if 0 < m.c1 then innerProductC1 m faces q h k else 0)
    + (if 0 < m.d1 ∨ 0 < m.b1 ∨ 0 < m.a1 then
          (if 0 < m.d1 then innerProductD1 m faces q h k else 0)
        + (if 0 < m.b1 ∨ 0 < m.a1 then
             innerProductA1 m faces q h k + innerProductB1 m faces q h k
           else 0)
       else 0)
   else 0)

/-- Modelled from the spec: `squared_norm(v, q) = inner_product(v, v, q)`,
the method inherited from the external geomstats `RiemannianMetric` base
class (not part of this repository's sources). -/
def squaredNorm {nV nF : ℕ} (m : ElasticMetric)
    (faces : Fin nF → Fin 3 → Fin nV) (v q : Surf nV) : ℝ :=
  innerProduct m faces v v q

/-- `ElasticMetric.path_energy_per_time` for a single (unbatched) path:
stepwise energy `n_times * squared_norm(diff_i, midpoint_i)` with
`diff_i = path[i+1] - path[i]` and `midpoint_i = path[i] + diff_i / 2`. -/
def pathEnergyPerTime {nV nF : ℕ} (m : ElasticMetric)
    (faces : Fin nF → Fin 3 → Fin nV) {nT : ℕ} (path : Fin nT → Surf nV)
    (i : Fin (nT - 1)) : ℝ :=
  let diff := path ⟨i.val + 1, by have := i.isLt; omega⟩
    - path ⟨i.val, by have := i.isLt; omega⟩
  let midpoint := path ⟨i.val, by have := i.isLt; omega⟩ + (1 / 2 : ℝ) • diff
  (nT : ℝ) * squaredNorm m faces diff midpoint

/-- `ElasticMetric.path_energy`: half the sum of the stepwise energies. -/
def pathEnergy {nV nF : ℕ} (m : ElasticMetric)
    (faces : Fin nF → Fin 3 → Fin nV) {nT : ℕ} (path : Fin nT → Surf nV) : ℝ :=
  (1 / 2 : ℝ) * ∑ i : Fin (nT - 1), pathEnergyPerTime m faces path i

/-- The result of a `scipy.optimize.minimize` call: the optimizer is a
black box per the specification, so only its returned fields are modelled.
`x` is the flat iterate, `success` the convergence flag the solver reports. -/
structure OptResult (n : ℕ) where
  x : Fin n → ℝ
  success : Bool

/-- The value `ElasticMetric._stepforward` returns: `sol.x` reshaped to
`(n_vertices, 3)`.  No field of `sol` other than `x` is consulted. -/
def stepforwardReturn {nV : ℕ} (sol : OptResult (nV * 3)) : Surf nV :=
  fun v d => sol.x ⟨v.val * 3 + d.val, by have := v.isLt; have := d.isLt; omega⟩

/-- The loop of `ElasticMetric._ivp` (`for _ in range(2, n_times)`), with the
one-step solver `sf` abstract: produce `n` further points, each one
`stepforward` of the previous two. -/
def ivpRec {nV : ℕ} (sf : Surf nV → Surf nV → Surf nV) (prev curr : Surf nV) :
    ℕ → List (Surf nV)
  | 0 => []
  | n + 1 => sf prev curr :: ivpRec sf curr (sf prev curr) n

/-- `ElasticMetric._ivp` with `n_times` time points: rescale the initial
tangent vector by `1 / (n_times - 1)`, seed the path with
`[initial_point, initial_point + v_scaled]`, then iterate the one-step
solver. -/
def ivpGeod {nV : ℕ} (sf : Surf nV → Surf nV → Surf nV)
    (initialPoint initialTangentVec : Surf nV) (nT : ℕ) : List (Surf nV) :=
  let v := ((nT : ℝ) - 1)⁻¹ • initialTangentVec
  let nextPoint := initialPoint + v
  initialPoint :: nextPoint :: ivpRec sf initialPoint nextPoint (nT - 2)

/-- `ElasticMetric.exp` for a single tangent vector: the last point
(`geod[-1]`) of the discretized shooting geodesic with `n_steps` points. -/
def expMap {nV : ℕ} (sf : Surf nV → Surf nV → Surf nV)
    (tangentVec basePoint : Surf nV) (nSteps : ℕ) : Surf nV :=
  (ivpGeod sf basePoint tangentVec nSteps).getLastD basePoint

/-- The times array `gs.linspace(0.0, 1.0, n)`. -/
def linspace01 (n : ℕ) (j : Fin n) : ℝ := (j.val : ℝ) / ((n : ℝ) - 1)

/-- The initial path built at the top of `ElasticMetric._bvp`:
`step = (end_point - initial_point) / (len(times) - 1)` and
`geod = [initial_point + i * step for i in times]` — note that the list
comprehension multiplies `step` by the time values themselves, not by the
integer index. -/
def bvpInitGeod {nV : ℕ} (initialPoint endPoint : Surf nV) {nT : ℕ}
    (times : Fin nT → ℝ) (j : Fin nT) : Surf nV :=
  initialPoint + times j • (((nT : ℝ) - 1)⁻¹ • (endPoint - initialPoint))

/-- The interior points `ElasticMetric._bvp` recovers from the optimizer:
`sol.x` reshaped to `(n_times - 2, n_vertices, 3)` (single-path case). -/
def bvpInterior {nV nT : ℕ} (sol : OptResult ((nT - 2) * (nV * 3)))
    (t : Fin (nT - 2)) : Surf nV :=
  fun v d =>
    sol.x ⟨t.val * (nV * 3) + (v.val * 3 + d.val),
      by
        have ht := t.isLt
        have hv := v.isLt
        have hd := d.isLt
        calc t.val * (nV * 3) + (v.val * 3 + d.val)
            < t.val * (nV * 3) + nV * 3 := by nlinarith
          _ ≤ (nT - 2) * (nV * 3) := by nlinarith⟩

/-- The geodesic `ElasticMetric._bvp` returns: the caller's `initial_point`,
then the optimizer-produced interior points, then the caller's `end_point`,
concatenated in that order. -/
def bvpGeod {nV nT : ℕ} (sol : OptResult ((nT - 2) * (nV * 3)))
    (initialPoint endPoint : Surf nV) : List (Surf nV) :=
  initialPoint :: (List.ofFn (@bvpInterior nV nT sol) ++ [endPoint])

/-- `ElasticMetric.log` for a single pair: `geod[1] - geod[0]` of the path
returned by `_bvp(base_point, point, times)`. -/
def logMap {nV nT : ℕ} (sol : OptResult ((nT - 2) * (nV * 3)))
    (point basePoint : Surf nV) : Surf nV :=
  (bvpGeod sol basePoint point).getD 1 0 - (bvpGeod sol basePoint point).getD 0 0

/-- Closed form of the two-back recurrence realized by the `_ivp` loop:
`P 0 = p0`, `P 1 = p1`, `P (n+2) = sf (P n) (P (n+1))`. -/
def ivpPoint {nV : ℕ} (sf : Surf nV → Surf nV → Surf nV) (p0 p1 : Surf nV) :
    ℕ → Surf nV
  | 0 => p0
  | 1 => p1
  | n + 2 => sf (ivpPoint sf p0 p1 n) (ivpPoint sf p0 p1 (n + 1))

/-- Test triangulation: a single face over three vertices. -/
def faces1 : Fin 1 → Fin 3 → Fin 3 := fun _ => ![0, 1, 2]

/-- Unit right triangle in the xy-plane. -/
def qTri : Surf 3 := ![![0, 0, 0], ![1, 0, 0], ![0, 1, 0]]

/-- Degenerate triangle with collinear vertices (true area zero). -/
def qCollinear : Surf 3 := ![![0, 0, 0], ![1, 0, 0], ![2, 0, 0]]

/-- Tangent vector moving vertex 1 of the triangle in-plane by `(0, 1, 0)`. -/
def hTri : Surf 3 := ![![0, 0, 0], ![0, 1, 0], ![0, 0, 0]]

/-- Coefficient set with only `d1` active. -/
def mD1 : ElasticMetric := elasticMetricInit 0 0 0 0 1 0

/-- Coefficient set with all six coefficients equal to one. -/
def mOnes : ElasticMetric := elasticMetricInit 1 1 1 1 1 1

/-- One-vertex surface at the origin. -/
def q0One : Surf 1 := fun _ => ![0, 0, 0]

/-- One-vertex surface at `(1, 0, 0)`. -/
def q1One : Surf 1 := fun _ => ![1, 0, 0]

/-!
### Theorems
-/

/-- A conditional between two nonnegative reals is nonnegative. -/
theorem ite_nonneg_of {c : Prop} [Decidable c] {x y : ℝ} (hx : 0 ≤ x)
    (hy : 0 ≤ y) : 0 ≤ if c then x else y := by
  split
  · exact hx
  · exact hy

/-- Claim C5 counterexample: constructing an `ElasticMetric` with `a0 = -1`
succeeds — `__init__` performs no validation, so the record is produced with
the negative coefficient stored, contradicting the claim that construction
fails with a configuration error on any negative coefficient. -/
theorem C5_counterexample :
    elasticMetricInit (-1) 1 1 1 1 1 = ⟨-1, 1, 1, 1, 1, 1⟩
      ∧ (elasticMetricInit (-1) 1 1 1 1 1).a0 < 0 :=
  ⟨rfl, by norm_num [elasticMetricInit]⟩

/-- Claim C5 (amended): `ElasticMetric.__init__` never fails; it stores the
six coefficients exactly as given, with no non-negativity check. -/
theorem C5_init_stores_unvalidated (a0 a1 b1 c1 d1 a2 : ℝ) :
    (elasticMetricInit a0 a1 b1 c1 d1 a2).a0 = a0
      ∧ (elasticMetricInit a0 a1 b1 c1 d1 a2).a1 = a1
      ∧ (elasticMetricInit a0 a1 b1 c1 d1 a2).b1 = b1
      ∧ (elasticMetricInit a0 a1 b1 c1 d1 a2).c1 = c1
      ∧ (elasticMetricInit a0 a1 b1 c1 d1 a2).d1 = d1
      ∧ (elasticMetricInit a0 a1 b1 c1 d1 a2).a2 = a2 :=
  ⟨rfl, rfl, rfl, rfl, rfl, rfl⟩

/-- Claim C4 counterexample: two optimizer results that differ only in their
convergence flag produce identical return values from both `_stepforward`
and `_bvp` — the caller cannot distinguish a non-converged solve from a
converged one. -/
theorem C4_counterexample :
    stepforwardReturn (⟨fun _ => 0, true⟩ : OptResult (1 * 3))
        = stepforwardReturn (⟨fun _ => 0, false⟩ : OptResult (1 * 3))
      ∧ bvpGeod (⟨fun _ => 0, true⟩ : OptResult ((3 - 2) * (1 * 3))) q0One q1One
        = bvpGeod (⟨fun _ => 0, false⟩ : OptResult ((3 - 2) * (1 * 3))) q0One q1One
      ∧ (⟨fun _ => 0, true⟩ : OptResult (1 * 3)).success
        ≠ (⟨fun _ => 0, false⟩ : OptResult (1 * 3)).success :=
  ⟨rfl, rfl, by simp⟩

/-- Claim C4 (amended): `_stepforward` and `_bvp` return only the reshaped
final iterate `sol.x`; every other field of the optimizer result, in
particular the convergence flag `sol.success`, is discarded, so the returned
value depends on `sol.x` alone. -/
theorem C4_return_ignores_convergence_flag {nV nT : ℕ}
    (solA solB : OptResult (nV * 3)) (hAB : solA.x = solB.x)
    (solC solD : OptResult ((nT - 2) * (nV * 3))) (hCD : solC.x = solD.x)
    (q0 q1 : Surf nV) :
    stepforwardReturn solA = stepforwardReturn solB
      ∧ bvpGeod solC q0 q1 = bvpGeod solD q0 q1 := by
  constructor
  · funext v d
    simp only [stepforwardReturn, hAB]
  · have h : bvpInterior solC = @bvpInterior nV nT solD := by
      funext t v d
      simp only [bvpInterior, hCD]
    simp only [bvpGeod, h]

/-- Witness for C4 (amended) at a concrete optimizer pair. -/
theorem C4_return_ignores_convergence_flag_witness :
    (⟨fun _ => 0, true⟩ : OptResult (1 * 3)).x
        = (⟨fun _ => 0, false⟩ : OptResult (1 * 3)).x
      ∧ (⟨fun _ => 0, true⟩ : OptResult ((3 - 2) * (1 * 3))).x
        = (⟨fun _ => 0, false⟩ : OptResult ((3 - 2) * (1 * 3))).x
      ∧ (stepforwardReturn (⟨fun _ => 0, true⟩ : OptResult (1 * 3))
          = stepforwardReturn (⟨fun _ => 0, false⟩ : OptResult (1 * 3))
        ∧ bvpGeod (⟨fun _ => 0, true⟩ : OptResult ((3 - 2) * (1 * 3))) q0One q1One
          = bvpGeod (⟨fun _ => 0, false⟩ : OptResult ((3 - 2) * (1 * 3))) q0One q1One) :=
  ⟨rfl, rfl,
    C4_return_ignores_convergence_flag ⟨fun _ => 0, true⟩ ⟨fun _ => 0, false⟩ rfl
      ⟨fun _ => 0, true⟩ ⟨fun _ => 0, false⟩ rfl q0One q1One⟩

/-- Claim C9: whatever interior points the optimizer returns, the geodesic
`_bvp` assembles has the caller's `initial_point` as its first element and
the caller's `end_point` as its last element, and `log` is `geod[1] -
geod[0]` of that path. -/
theorem C9_bvp_endpoints_fixed {nV nT : ℕ}
    (sol : OptResult ((nT - 2) * (nV * 3))) (q0 q1 : Surf nV) :
    (bvpGeod sol q0 q1).headD 0 = q0
      ∧ (bvpGeod sol q0 q1).getLastD 0 = q1
      ∧ logMap sol q1 q0 = (bvpGeod sol q0 q1).getD 1 0 - q0 := by
  refine ⟨rfl, ?_, ?_⟩
  · show (q0 :: (List.ofFn _ ++ [q1])).getLastD 0 = q1
    rw [← List.cons_append, List.getLastD_concat]
  · simp only [logMap, bvpGeod, List.getD_cons_zero]

/-- Claim C3: the initial path `_bvp` builds multiplies `step` by the time
values rather than by the integer index, so on `times = linspace(0, 1, 3)`
and endpoints `0` and `(1,0,0)` the path reads `[0, 1/4, 1/2]` instead of
the linear interpolation `[0, 1/2, 1]`; in particular its last point is not
the end point, and the interior point handed to the optimizer is `1/4`, not
the midpoint `1/2` required by the claim. -/
theorem C3_initial_path_not_interpolation :
    bvpInitGeod q0One q1One (linspace01 3) 1 0 0 = 1 / 4
      ∧ bvpInitGeod q0One q1One (linspace01 3) 2 0 0 = 1 / 2
      ∧ bvpInitGeod q0One q1One (linspace01 3) 2 ≠ q1One
      ∧ q0One 0 0 + ((2 : ℝ) / ((3 : ℝ) - 1)) * (q1One 0 0 - q0One 0 0) = 1 := by
  have h1 : bvpInitGeod q0One q1One (linspace01 3) 1 0 0 = 1 / 4 := by
    norm_num [bvpInitGeod, linspace01, q0One, q1One]
  have h2 : bvpInitGeod q0One q1One (linspace01 3) 2 0 0 = 1 / 2 := by
    norm_num [bvpInitGeod, linspace01, q0One, q1One]
  refine ⟨h1, h2, ?_, by norm_num [q0One, q1One]⟩
  intro h
  have := congrFun (congrFun h 0) 0
  rw [h2] at this
  norm_num [q1One] at this

/-- The `_ivp` loop produces exactly `n` further points. -/
theorem ivpRec_length {nV : ℕ} (sf : Surf nV → Surf nV → Surf nV) :
    ∀ (n : ℕ) (a b : Surf nV), (ivpRec sf a b n).length = n
  | 0, _, _ => rfl
  | n + 1, a, b => by
    simp [ivpRec, ivpRec_length sf n]

/-- Shifting the seed pair of the recurrence by one step. -/
theorem ivpPoint_shift {nV : ℕ} (sf : Surf nV → Surf nV → Surf nV)
    (a b : Surf nV) :
    ∀ k, ivpPoint sf b (sf a b) k = ivpPoint sf a b (k + 1)
  | 0 => rfl
  | 1 => rfl
  | k + 2 => by
    show sf (ivpPoint sf b (sf a b) k) (ivpPoint sf b (sf a b) (k + 1))
      = ivpPoint sf a b (k + 2 + 1)
    rw [ivpPoint_shift sf a b k, ivpPoint_shift sf a b (k + 1)]
    rfl

/-- The `i`-th element of the `_ivp` loop output is the `(i+2)`-th point of
the two-back recurrence seeded at the loop's first two points. -/
theorem ivpRec_getD {nV : ℕ} (sf : Surf nV → Surf nV → Surf nV)
    (d : Surf nV) :
    ∀ (n : ℕ) (a b : Surf nV) (i : ℕ), i < n →
      (ivpRec sf a b n).getD i d = ivpPoint sf a b (i + 2)
  | 0, _, _, _, h => absurd h (by omega)
  | _ + 1, _, _, 0, _ => rfl
  | n + 1, a, b, i + 1, h => by
    show (ivpRec sf b (sf a b) n).getD i d = ivpPoint sf a b (i + 1 + 2)
    rw [ivpRec_getD sf d n b (sf a b) i (by omega),
      ivpPoint_shift sf a b (i + 2)]

/-- Every point of the `_ivp` geodesic is a value of the two-back
recurrence seeded at `p0 = q0` and `p1 = q0 + v / (n_times - 1)`. -/
theorem ivpGeod_getD {nV : ℕ} (sf : Surf nV → Surf nV → Surf nV)
    (q0 v : Surf nV) (nT : ℕ) (d : Surf nV) :
    ∀ i : ℕ, i < nT →
      (ivpGeod sf q0 v nT).getD i d
        = ivpPoint sf q0 (q0 + ((nT : ℝ) - 1)⁻¹ • v) i
  | 0, _ => rfl
  | 1, _ => rfl
  | i + 2, h => by
    show (ivpRec sf q0 (q0 + ((nT : ℝ) - 1)⁻¹ • v) (nT - 2)).getD i d = _
    rw [ivpRec_getD sf d (nT - 2) _ _ i (by omega)]

/-- The last-element accessor agrees with indexing at `length - 1`. -/
theorem getLastD_eq_getD {α : Type} (l : List α) (d : α) :
    l.getLastD d = l.getD (l.length - 1) d := by
  rw [List.getLastD_eq_getLast?, List.getLast?_eq_getElem?,
    List.getD_eq_getElem?_getD]

/-- Claim C8: for `n_steps ≥ 2` the shooting geodesic has exactly `n_steps`
points, starts at `q0`, has `q0 + v / (n_steps - 1)` as its second point,
produces each subsequent point by one `stepforward` call on the previous
two, and `exp` returns its last point. -/
theorem C8_shooting_structure {nV : ℕ} (sf : Surf nV → Surf nV → Surf nV)
    (q0 v : Surf nV) (nT : ℕ) (h2 : 2 ≤ nT) :
    (ivpGeod sf q0 v nT).length = nT
      ∧ (ivpGeod sf q0 v nT).getD 0 0 = q0
      ∧ (ivpGeod sf q0 v nT).getD 1 0 = q0 + ((nT : ℝ) - 1)⁻¹ • v
      ∧ (∀ i : ℕ, 2 ≤ i → i < nT →
          (ivpGeod sf q0 v nT).getD i 0
            = sf ((ivpGeod sf q0 v nT).getD (i - 2) 0)
                ((ivpGeod sf q0 v nT).getD (i - 1) 0))
      ∧ expMap sf v q0 nT = (ivpGeod sf q0 v nT).getD (nT - 1) 0 := by
  have hlen : (ivpGeod sf q0 v nT).length = nT := by
    simp only [ivpGeod, List.length_cons, ivpRec_length]
    omega
  refine ⟨hlen, rfl, rfl, ?_, ?_⟩
  · intro i hi2 hiT
    rw [ivpGeod_getD sf q0 v nT 0 i hiT,
      ivpGeod_getD sf q0 v nT 0 (i - 2) (by omega),
      ivpGeod_getD sf q0 v nT 0 (i - 1) (by omega)]
    have hi : i = (i - 2) + 2 := by omega
    rw [hi]
    have h1 : (i - 2) + 2 - 2 = i - 2 := by omega
    have h2' : (i - 2) + 2 - 1 = (i - 2) + 1 := by omega
    rw [h1, h2']
    rfl
  · rw [expMap, getLastD_eq_getD, hlen,
      ivpGeod_getD sf q0 v nT q0 (nT - 1) (by omega),
      ivpGeod_getD sf q0 v nT 0 (nT - 1) (by omega)]

/-- Witness for C8 at a concrete one-step solver and three time points. -/
theorem C8_shooting_structure_witness :
    2 ≤ 3
      ∧ ((ivpGeod (fun _ b => b) q0One q1One 3).length = 3
        ∧ (ivpGeod (fun _ b => b) q0One q1One 3).getD 0 0 = q0One
        ∧ (ivpGeod (fun _ b => b) q0One q1One 3).getD 1 0
            = q0One + ((3 : ℝ) - 1)⁻¹ • q1One
        ∧ (∀ i : ℕ, 2 ≤ i → i < 3 →
            (ivpGeod (fun _ b => b) q0One q1One 3).getD i 0
              = (fun (_ b : Surf 1) => b)
                  ((ivpGeod (fun _ b => b) q0One q1One 3).getD (i - 2) 0)
                  ((ivpGeod (fun _ b => b) q0One q1One 3).getD (i - 1) 0))
        ∧ expMap (fun _ b => b) q1One q0One 3
            = (ivpGeod (fun _ b => b) q0One q1One 3).getD (3 - 1) 0) :=
  ⟨by norm_num, C8_shooting_structure (fun _ b => b) q0One q1One 3 (by norm_num)⟩

/-- Claim C10: the operator returned by `laplacian(point)` is linear in its
tangent-vector argument, and maps every constant per-vertex displacement
field (a rigid translation) to the zero field. -/
theorem C10_laplacian_linear_kills_translations {nV nF : ℕ}
    (faces : Fin nF → Fin 3 → Fin nV) (q : Surf nV) (α β : ℝ)
    (u v : Surf nV) (c : V3) :
    laplacianAt faces q (α • u + β • v)
        = α • laplacianAt faces q u + β • laplacianAt faces q v
      ∧ laplacianAt faces q (fun _ => c) = 0 := by
  constructor
  · funext w
    simp only [laplacianAt, Pi.add_apply, Pi.smul_apply, Finset.smul_sum,
      ← Finset.sum_add_distrib]
    refine Finset.sum_congr rfl fun k _ => ?_
    by_cases hkw : lapIdx1 faces k = w
    · simp only [if_pos hkw, Pi.add_apply, Pi.smul_apply]
      module
    · simp only [if_neg hkw, smul_zero, add_zero]
  · funext w
    simp only [laplacianAt, sub_self, smul_zero, ite_self,
      Finset.sum_const_zero, Pi.zero_apply]

/-- Claim C7: the stepwise path energy is
`n_times * squared_norm(path[i+1] - path[i], path[i] + diff/2)` — which by
definition of `squared_norm` is the elastic inner product of the difference
with itself at the midpoint — and the total path energy is half the sum of
the stepwise energies. -/
theorem C7_path_energy_formula {nV nF nT : ℕ} (m : ElasticMetric)
    (faces : Fin nF → Fin 3 → Fin nV) (path : Fin nT → Surf nV)
    (i : Fin (nT - 1)) :
    pathEnergyPerTime m faces path i
        = (nT : ℝ) * innerProduct m faces
            (path ⟨i.val + 1, by have := i.isLt; omega⟩
              - path ⟨i.val, by have := i.isLt; omega⟩)
            (path ⟨i.val + 1, by have := i.isLt; omega⟩
              - path ⟨i.val, by have := i.isLt; omega⟩)
            (path ⟨i.val, by have := i.isLt; omega⟩
              + (1 / 2 : ℝ) • (path ⟨i.val + 1, by have := i.isLt; omega⟩
                - path ⟨i.val, by have := i.isLt; omega⟩))
      ∧ pathEnergy m faces path
        = (1 / 2 : ℝ) * ∑ j : Fin (nT - 1), pathEnergyPerTime m faces path j :=
  ⟨rfl, rfl⟩

/-- The dot product of a vector with itself is nonnegative. -/
theorem dot_self_nonneg (a : V3) : 0 ≤ dot a a :=
  Finset.sum_nonneg fun d _ => mul_self_nonneg (a d)

/-- Evaluation of a three-entry vector literal at index `2`. -/
theorem vec3_at2 {α : Type} (a b c : α) : (![a, b, c] : Fin 3 → α) 2 = c := rfl

/-- The Gram determinant of the one-forms equals the squared norm of the
cross product of the two edge vectors (Lagrange identity), hence is
nonnegative: `face_areas` never takes the square root of a negative
quantity in exact arithmetic. -/
theorem gram_det_eq_cross_sq {nV nF : ℕ} (faces : Fin nF → Fin 3 → Fin nV)
    (q : Surf nV) (f : Fin nF) :
    m2det (surfaceMetricMats faces q f)
      = dot (cross (vtx faces q f 1 - vtx faces q f 0)
              (vtx faces q f 2 - vtx faces q f 0))
            (cross (vtx faces q f 1 - vtx faces q f 0)
              (vtx faces q f 2 - vtx faces q f 0)) := by
  simp only [m2det, surfaceMetricMats, metricFromOneForms, mmul, mtrans,
    oneForms, dot, cross, Fin.sum_univ_three, Fin.sum_univ_two,
    Matrix.cons_val_zero, Matrix.cons_val_one, Matrix.head_cons, vec3_at2,
    Pi.sub_apply]
  ring

/-- The Gram determinant under the square root of `face_areas` is
nonnegative. -/
theorem gram_det_nonneg {nV nF : ℕ} (faces : Fin nF → Fin 3 → Fin nV)
    (q : Surf nV) (f : Fin nF) :
    0 ≤ m2det (surfaceMetricMats faces q f) := by
  rw [gram_det_eq_cross_sq]
  exact dot_self_nonneg _

/-- Claim C2 counterexample: on a face with collinear vertices the Gram
determinant is zero, and `face_areas` — whose square root is not preceded by
any clip — returns `0`, strictly below the clipped minimum `√(1e-6)` that
the claim asserts. -/
theorem C2_counterexample :
    faceAreas faces1 qCollinear 0 = 0
      ∧ faceAreas faces1 qCollinear 0 < Real.sqrt (1 / 1000000) := by
  have hdet : m2det (surfaceMetricMats faces1 qCollinear 0) = 0 := by
    norm_num [m2det, surfaceMetricMats, metricFromOneForms, mmul, mtrans,
      oneForms, vtx, faces1, qCollinear, Fin.sum_univ_three, Fin.sum_univ_two,
      Matrix.cons_val_zero, Matrix.cons_val_one, Matrix.head_cons]
  have h0 : faceAreas faces1 qCollinear 0 = 0 := by
    rw [faceAreas, hdet, Real.sqrt_zero]
  exact ⟨h0, by rw [h0]; exact Real.sqrt_pos.mpr (by norm_num)⟩

/-- Claim C2 (amended): the `1e-6` clip before a square root lives in
`_triangle_areas`, whose clipped Heron quantity is at least `1e-6` so the
triangle areas are at least `√(1e-6)`; `face_areas` itself takes the square
root of the unclipped Gram determinant, which is always nonnegative in exact
arithmetic (so no NaN arises there, but a collinear face yields area `0`,
not a clipped minimum). -/
theorem C2_sqrt_arguments_safe {nV nF : ℕ} (faces : Fin nF → Fin 3 → Fin nV)
    (q : Surf nV) (f : Fin nF) :
    0 ≤ m2det (surfaceMetricMats faces q f)
      ∧ (1 / 1000000 : ℝ) ≤ heronClipped faces q f
      ∧ 0 ≤ faceAreas faces q f
      ∧ Real.sqrt (1 / 1000000) ≤ triangleAreas faces q f :=
  ⟨gram_det_nonneg faces q f, le_max_right _ _, Real.sqrt_nonneg _,
    Real.sqrt_le_sqrt (le_max_right _ _)⟩

/-- Claim C1: with `d1 = 1` and all other coefficients zero, `inner_product`
returns `0` — the guard `a1 > 0 or b1 > 0 or c1 > 0 or b1 > 0` tests `b1`
twice instead of `d1`, so the `d1` term is skipped — while the sum of the
six per-term helpers is `2` at the same input.  The returned value therefore
differs from the claimed six-term sum. -/
theorem C1_d1_term_dropped :
    innerProduct mD1 faces1 hTri hTri qTri = 0
      ∧ innerProductA0 mD1 faces1 qTri hTri hTri
          + innerProductA1 mD1 faces1 qTri hTri hTri
          + innerProductB1 mD1 faces1 qTri hTri hTri
          + innerProductC1 mD1 faces1 qTri hTri hTri
          + innerProductD1 mD1 faces1 qTri hTri hTri
          + innerProductA2 mD1 faces1 qTri hTri hTri = 2
      ∧ innerProduct mD1 faces1 hTri hTri qTri
          ≠ innerProductA0 mD1 faces1 qTri hTri hTri
            + innerProductA1 mD1 faces1 qTri hTri hTri
            + innerProductB1 mD1 faces1 qTri hTri hTri
            + innerProductC1 mD1 faces1 qTri hTri hTri
            + innerProductD1 mD1 faces1 qTri hTri hTri
            + innerProductA2 mD1 faces1 qTri hTri hTri := by
  have hzero : innerProduct mD1 faces1 hTri hTri qTri = 0 := by
    norm_num [innerProduct, mD1, elasticMetricInit]
  have hA0 : innerProductA0 mD1 faces1 qTri hTri hTri = 0 := by
    rw [innerProductA0, show mD1.a0 = 0 from rfl, zero_mul]
  have hA1 : innerProductA1 mD1 faces1 qTri hTri hTri = 0 := by
    rw [innerProductA1, show mD1.a1 = 0 from rfl, zero_mul]
  have hB1 : innerProductB1 mD1 faces1 qTri hTri hTri = 0 := by
    rw [innerProductB1, show mD1.b1 = 0 from rfl, zero_mul]
  have hC1 : innerProductC1 mD1 faces1 qTri hTri hTri = 0 := by
    rw [innerProductC1, show mD1.c1 = 0 from rfl, zero_mul]
  have hA2 : innerProductA2 mD1 faces1 qTri hTri hTri = 0 := by
    rw [innerProductA2, show mD1.a2 = 0 from rfl, zero_mul]
  have hD1 : innerProductD1 mD1 faces1 qTri hTri hTri = 2 := by
    norm_num [innerProductD1, mD1, elasticMetricInit, Fin.sum_univ_one,
      faceAreas, mtrace, mmul, mtrans, msub, xRes, m2inv, m2det,
      surfaceMetricMats, metricFromOneForms, oneForms, vtx, faces1, qTri,
      hTri, Fin.sum_univ_two, Fin.sum_univ_three, Matrix.cons_val_zero,
      Matrix.cons_val_one, Matrix.head_cons, vec3_at2, Pi.add_apply,
      Pi.sub_apply, Real.sqrt_one]
  refine ⟨hzero, ?_, ?_⟩
  · rw [hA0, hA1, hB1, hC1, hD1, hA2]
    norm_num
  · rw [hzero, hA0, hA1, hB1, hC1, hD1, hA2]
    norm_num

/-- `_triangle_areas` values are nonnegative. -/
theorem triangleAreas_nonneg {nV nF : ℕ} (faces : Fin nF → Fin 3 → Fin nV)
    (q : Surf nV) (f : Fin nF) : 0 ≤ triangleAreas faces q f :=
  Real.sqrt_nonneg _

/-- `vertex_areas` values are nonnegative. -/
theorem vertexAreas_nonneg {nV nF : ℕ} (faces : Fin nF → Fin 3 → Fin nV)
    (q : Surf nV) (v : Fin nV) : 0 ≤ vertexAreas faces q v := by
  refine div_nonneg (mul_nonneg (by norm_num)
    (Finset.sum_nonneg fun k _ => ?_)) (by norm_num)
  split
  · exact triangleAreas_nonneg faces q _
  · exact le_rfl

/-- The surface metric matrix is symmetric. -/
theorem metric_symm {nV nF : ℕ} (faces : Fin nF → Fin 3 → Fin nV)
    (q : Surf nV) (f : Fin nF) :
    surfaceMetricMats faces q f 1 0 = surfaceMetricMats faces q f 0 1 := by
  simp only [surfaceMetricMats, metricFromOneForms, mmul, mtrans]
  exact Finset.sum_congr rfl fun k _ => mul_comm _ _

/-- The diagonal entries of the surface metric matrix are nonnegative. -/
theorem metric_diag_nonneg {nV nF : ℕ} (faces : Fin nF → Fin 3 → Fin nV)
    (q : Surf nV) (f : Fin nF) (i : Fin 2) :
    0 ≤ surfaceMetricMats faces q f i i := by
  simp only [surfaceMetricMats, metricFromOneForms, mmul, mtrans]
  exact Finset.sum_nonneg fun k _ => mul_self_nonneg _

/-- The metric-variation matrix `dg` is symmetric. -/
theorem dgMat_symm {nV nF : ℕ} (faces : Fin nF → Fin 3 → Fin nV)
    (q p : Surf nV) (f : Fin nF) :
    dgMat faces q p f 1 0 = dgMat faces q p f 0 1 := by
  simp only [dgMat, msub]
  rw [metric_symm faces q f]
  congr 1
  simp only [mmul, mtrans]
  exact Finset.sum_congr rfl fun k _ => mul_comm _ _

/-- A binary quadratic form with positive leading coefficient and positive
discriminant condition is nonnegative. -/
theorem quad_cert (p q r w0 w1 : ℝ) (hp : 0 < p) (hd : 0 < p * r - q * q) :
    0 ≤ p * w0 ^ 2 + 2 * q * w0 * w1 + r * w1 ^ 2 := by
  by_contra hT
  push_neg at hT
  nlinarith [sq_nonneg (p * w0 + q * w1), mul_nonneg hd.le (sq_nonneg w1),
    mul_pos hp (neg_pos.mpr hT)]

/-- The trace of the square of the product of a symmetric positive-definite
2×2 matrix with a symmetric 2×2 matrix is nonnegative (entrywise form). -/
theorem key_trace_nonneg (a b c s t u : ℝ) (ha : 0 < a)
    (hd : 0 < a * c - b * b) :
    0 ≤ (a * s + b * t) ^ 2 + 2 * (a * t + b * u) * (b * s + c * t)
      + (b * t + c * u) ^ 2 := by
  by_contra hT
  push_neg at hT
  nlinarith [sq_nonneg (a ^ 2 * s + 2 * a * b * t + b ^ 2 * u),
    sq_nonneg ((a * c - b * b) * u),
    mul_nonneg hd.le (sq_nonneg (a * t + b * u)),
    mul_pos (mul_pos ha ha) (neg_pos.mpr hT)]

/-- A symmetric 2×2 matrix with positive determinant and nonnegative lower
diagonal entry has positive lower diagonal entry. -/
theorem g11_pos (g : M2) (hg : g 1 0 = g 0 1) (h11 : 0 ≤ g 1 1)
    (hdet : 0 < m2det g) : 0 < g 1 1 := by
  simp only [m2det, hg] at hdet
  rcases eq_or_lt_of_le h11 with h | h
  · exfalso
    rw [← h] at hdet
    nlinarith [sq_nonneg (g 0 1)]
  · exact h

/-- `tr((g⁻¹ S)²) ≥ 0` for a symmetric positive-definite `g` and symmetric
`S`: the quantity appearing per face in the `a1` term at equal tangent
vectors. -/
theorem m2inv_trace_sq_nonneg (g S : M2) (hg : g 1 0 = g 0 1)
    (hS : S 1 0 = S 0 1) (h11 : 0 ≤ g 1 1) (hdet : 0 < m2det g) :
    0 ≤ mtrace (mmul (mmul (m2inv g) S) (mmul (m2inv g) S)) := by
  have hne : m2det g ≠ 0 := ne_of_gt hdet
  have e00 : m2inv g 0 0 = g 1 1 / m2det g := rfl
  have e01 : m2inv g 0 1 = -(g 0 1) / m2det g := rfl
  have e10 : m2inv g 1 0 = -(g 1 0) / m2det g := rfl
  have e11 : m2inv g 1 1 = g 0 0 / m2det g := rfl
  have heq : mtrace (mmul (mmul (m2inv g) S) (mmul (m2inv g) S))
      = ((g 1 1 * S 0 0 + -(g 0 1) * S 0 1) ^ 2
          + 2 * (g 1 1 * S 0 1 + -(g 0 1) * S 1 1)
            * (-(g 0 1) * S 0 0 + g 0 0 * S 0 1)
          + (-(g 0 1) * S 0 1 + g 0 0 * S 1 1) ^ 2) / (m2det g) ^ 2 := by
    simp only [mtrace, mmul, Fin.sum_univ_two, e00, e01, e10, e11, hg, hS]
    field_simp
    ring
  rw [heq]
  refine div_nonneg ?_ (sq_nonneg _)
  exact key_trace_nonneg (g 1 1) (-(g 0 1)) (g 0 0) (S 0 0) (S 0 1) (S 1 1)
    (g11_pos g hg h11 hdet)
    (by simp only [m2det, hg] at hdet; nlinarith [hdet])

/-- `tr(X g⁻¹ Xᵀ) ≥ 0` for a 3×2 matrix `X` and symmetric positive-definite
2×2 matrix `g`: the quantity appearing per face in the `d1` term at equal
tangent vectors. -/
theorem trace_xgx_nonneg (g : M2) (X : Fin 3 → Fin 2 → ℝ)
    (hg : g 1 0 = g 0 1) (h11 : 0 ≤ g 1 1) (hdet : 0 < m2det g) :
    0 ≤ mtrace (mmul X (mmul (m2inv g) (mtrans X))) := by
  have h11' : 0 < g 1 1 := g11_pos g hg h11 hdet
  have hd' : 0 < g 1 1 * g 0 0 - -(g 0 1) * -(g 0 1) := by
    simp only [m2det, hg] at hdet
    nlinarith [hdet]
  have hrow : ∀ w0 w1 : ℝ,
      0 ≤ w0 * (m2inv g 0 0 * w0 + m2inv g 0 1 * w1)
        + w1 * (m2inv g 1 0 * w0 + m2inv g 1 1 * w1) := by
    intro w0 w1
    have e00 : m2inv g 0 0 = g 1 1 / m2det g := rfl
    have e01 : m2inv g 0 1 = -(g 0 1) / m2det g := rfl
    have e10 : m2inv g 1 0 = -(g 1 0) / m2det g := rfl
    have e11 : m2inv g 1 1 = g 0 0 / m2det g := rfl
    have heq : w0 * (m2inv g 0 0 * w0 + m2inv g 0 1 * w1)
        + w1 * (m2inv g 1 0 * w0 + m2inv g 1 1 * w1)
        = (g 1 1 * w0 ^ 2 + 2 * -(g 0 1) * w0 * w1 + g 0 0 * w1 ^ 2)
          / m2det g := by
      rw [e00, e01, e10, e11, hg]
      field_simp
      try ring
    rw [heq]
    exact div_nonneg (quad_cert (g 1 1) (-(g 0 1)) (g 0 0) w0 w1 h11' hd')
      hdet.le
  have hexp : mtrace (mmul X (mmul (m2inv g) (mtrans X)))
      = ∑ i : Fin 3,
          (X i 0 * (m2inv g 0 0 * X i 0 + m2inv g 0 1 * X i 1)
            + X i 1 * (m2inv g 1 0 * X i 0 + m2inv g 1 1 * X i 1)) := by
    simp only [mtrace, mmul, mtrans]
    refine Finset.sum_congr rfl fun i _ => ?_
    simp only [Fin.sum_univ_two]
  rw [hexp]
  exact Finset.sum_nonneg fun i _ => hrow (X i 0) (X i 1)

/-- Claim C6: for a non-degenerate base surface (all face Gram determinants
positive) and nonnegative, not-all-zero coefficients, the elastic inner
product of any tangent vector with itself is nonnegative. -/
theorem C6_inner_product_psd {nV nF : ℕ} (m : ElasticMetric)
    (faces : Fin nF → Fin 3 → Fin nV) (q v : Surf nV)
    (ha0 : 0 ≤ m.a0) (ha1 : 0 ≤ m.a1) (hb1 : 0 ≤ m.b1) (hc1 : 0 ≤ m.c1)
    (hd1 : 0 ≤ m.d1) (ha2 : 0 ≤ m.a2)
    (hnz : ¬(m.a0 = 0 ∧ m.a1 = 0 ∧ m.b1 = 0 ∧ m.c1 = 0 ∧ m.d1 = 0
      ∧ m.a2 = 0))
    (hq : ∀ f : Fin nF, 0 < m2det (surfaceMetricMats faces q f)) :
    0 ≤ innerProduct m faces v v q := by
  have hA0 : 0 ≤ innerProductA0 m faces q v v :=
    mul_nonneg ha0 (Finset.sum_nonneg fun x _ =>
      mul_nonneg (vertexAreas_nonneg faces q x) (dot_self_nonneg _))
  have hA2 : 0 ≤ innerProductA2 m faces q v v :=
    mul_nonneg ha2 (Finset.sum_nonneg fun x _ =>
      div_nonneg (dot_self_nonneg _) (vertexAreas_nonneg faces q x))
  have hC1 : 0 ≤ innerProductC1 m faces q v v :=
    mul_nonneg hc1 (Finset.sum_nonneg fun f _ =>
      mul_nonneg (dot_self_nonneg _) (Real.sqrt_nonneg _))
  have hA1 : 0 ≤ innerProductA1 m faces q v v :=
    mul_nonneg ha1 (Finset.sum_nonneg fun f _ =>
      mul_nonneg
        (m2inv_trace_sq_nonneg (surfaceMetricMats faces q f)
          (dgMat faces q (q + v) f) (metric_symm faces q f)
          (dgMat_symm faces q (q + v) f) (metric_diag_nonneg faces q f 1)
          (hq f))
        (Real.sqrt_nonneg _))
  have hB1 : 0 ≤ innerProductB1 m faces q v v :=
    mul_nonneg hb1 (Finset.sum_nonneg fun f _ =>
      mul_nonneg (mul_self_nonneg _) (Real.sqrt_nonneg _))
  have hD1 : 0 ≤ innerProductD1 m faces q v v :=
    mul_nonneg hd1 (Finset.sum_nonneg fun f _ =>
      mul_nonneg
        (trace_xgx_nonneg (surfaceMetricMats faces q f)
          (xRes faces q (q + v) f) (metric_symm faces q f)
          (metric_diag_nonneg faces q f 1) (hq f))
        (Real.sqrt_nonneg _))
  exact add_nonneg
    (ite_nonneg_of
      (add_nonneg (ite_nonneg_of hA0 le_rfl) (ite_nonneg_of hA2 le_rfl))
      le_rfl)
    (ite_nonneg_of
      (add_nonneg (ite_nonneg_of hC1 le_rfl)
        (ite_nonneg_of
          (add_nonneg (ite_nonneg_of hD1 le_rfl)
            (ite_nonneg_of (add_nonneg hA1 hB1) le_rfl))
          le_rfl))
      le_rfl)

/-- Witness for C6 on the unit right triangle with unit coefficients. -/
theorem C6_inner_product_psd_witness :
    0 ≤ mOnes.a0 ∧ 0 ≤ mOnes.a1 ∧ 0 ≤ mOnes.b1 ∧ 0 ≤ mOnes.c1
      ∧ 0 ≤ mOnes.d1 ∧ 0 ≤ mOnes.a2
      ∧ ¬(mOnes.a0 = 0 ∧ mOnes.a1 = 0 ∧ mOnes.b1 = 0 ∧ mOnes.c1 = 0
        ∧ mOnes.d1 = 0 ∧ mOnes.a2 = 0)
      ∧ (∀ f : Fin 1, 0 < m2det (surfaceMetricMats faces1 qTri f))
      ∧ 0 ≤ innerProduct mOnes faces1 hTri hTri qTri := by
  have hdet : ∀ f : Fin 1, 0 < m2det (surfaceMetricMats faces1 qTri f) := by
    intro f
    have hf : f = 0 := Subsingleton.elim f 0
    rw [hf]
    norm_num [m2det, surfaceMetricMats, metricFromOneForms, mmul, mtrans,
      oneForms, vtx, faces1, qTri, Fin.sum_univ_three, Fin.sum_univ_two,
      Matrix.cons_val_zero, Matrix.cons_val_one, Matrix.head_cons]
  refine ⟨by norm_num [mOnes, elasticMetricInit],
    by norm_num [mOnes, elasticMetricInit],
    by norm_num [mOnes, elasticMetricInit],
    by norm_num [mOnes, elasticMetricInit],
    by norm_num [mOnes, elasticMetricInit],
    by norm_num [mOnes, elasticMetricInit],
    by norm_num [mOnes, elasticMetricInit], hdet, ?_⟩
  exact C6_inner_product_psd mOnes faces1 qTri hTri
    (by norm_num [mOnes, elasticMetricInit])
    (by norm_num [mOnes, elasticMetricInit])
    (by norm_num [mOnes, elasticMetricInit])
    (by norm_num [mOnes, elasticMetricInit])
    (by norm_num [mOnes, elasticMetricInit])
    (by norm_num [mOnes, elasticMetricInit])
    (by norm_num [mOnes, elasticMetricInit]) hdet

end MyBrains


